import Mathlib

/-!
Verification of the flask-exceptional error-reporting pipeline
(`src/flask_exceptional.py`) against its natural-language specification.
The Python module is shallowly embedded: mappings become association
lists, byte strings become lists of naturals, and every collaborator
call that may raise a Python exception is threaded through `Except`.
-/

set_option maxRecDepth 4096

/-- Redaction marker substituted for filtered values
(`Exceptional.__filter`, line 327). -/
def FILTERED : String := "[FILTERED]"

/-- Embeds `Exceptional.__filter` (lines 315-334).  `m pat key` models
`re.match(pat, key) is not None` (the `re` module is an external
collaborator; `re.match` anchors at the start of the key).  `rules`
models `app.config.get(filter_name)`: `none` for an absent/None entry.
Python's `if filter:` treats both `None` and the empty list as falsy,
in which case the result is `dict(data)`, a shallow copy. -/
def filter (m : String → String → Bool) (rules : Option (List String))
    (data : List (String × String)) : List (String × String) :=
  match rules with
  | none => data
  | some [] => data
  | some (p :: ps) =>
      data.map (fun kv =>
        if (p :: ps).any (fun pat => m pat kv.1) then (kv.1, FILTERED) else kv)

/-- JSON values, as produced by the host's `request.json` collaborator. -/
inductive Json
  | null
  | bool (b : Bool)
  | num (n : Int)
  | str (s : String)
  | arr (elems : List Json)
  | obj (fields : List (String × Json))

/-- Python truthiness of a parsed JSON value: `None`, `False`, `0`,
`""`, `[]` and `{}` are falsy, everything else truthy. -/
def Json.truthy : Json → Bool
  | .null => false
  | .bool b => b
  | .num n => n != 0
  | .str s => s != ""
  | .arr l => !l.isEmpty
  | .obj m => !m.isEmpty

/-- Embeds the parameter seeding of `Exceptional.__get_request_data`
(lines 394-397):
`try: parameters = request.json or {} except: parameters = {"INVALID_JSON": request.data}`.
`requestJson` models the `request.json` collaborator: `.error ()` when
the JSON parse raises, `.ok none` when no parse is attempted (the
property returns `None`), `.ok (some v)` when the body parses to `v`.
`requestData` models the raw body `request.data`. -/
def seedParameters (requestJson : Except Unit (Option Json))
    (requestData : String) : Json :=
  match requestJson with
  | .error _ => .obj [("INVALID_JSON", .str requestData)]
  | .ok none => .obj []
  | .ok (some v) => if v.truthy then v else .obj []

/-- Default tracked HTTP status codes: `set(xrange(400, 418))`
(`init_app`, lines 78-79). -/
def defaultHttpCodes : List Nat := List.range' 400 18

/-- Embeds the wrapped HTTP exception handler returned by
`Exceptional._get_http_exception_handler` (lines 206-226):
`if exception.code in EXCEPTIONAL_HTTP_CODES: self._post_data(context)`
followed by `return handle_http_exception(exception)`.  `post` models
the `self._post_data(context)` call, which may raise (see `postData`).
The first component records whether `_post_data` was invoked; the
second is the handler outcome: the wrapped original
`handle_http_exception` result when `_post_data` was skipped or
returned normally, or the propagating exception when `_post_data`
raised — the original handler is then never reached. -/
def httpExceptionHandler {α : Type} (codes : List Nat)
    (post : Except String (List Nat)) (orig : Nat → α) (code : Nat) :
    Bool × Except String α :=
  if codes.contains code then
    (true, post.bind (fun _ => .ok (orig code)))
  else
    (false, .ok (orig code))

/-- One frame of a `werkzeug.debug.tbtools.Traceback`, as consumed by
`Exceptional.__get_exception_data` (lines 375-381). -/
structure Frame where
  filename : String
  lineno : Nat
  functionName : String
  currentLine : String
deriving DecidableEq

/-- Python whitespace, as recognized by `str.strip`. -/
def isPySpace (c : Char) : Bool :=
  c = ' ' || c = '\t' || c = '\n' || c = '\r' || c = '\x0b' || c = '\x0c'

/-- Models Python's `str.strip()`: drop leading and trailing whitespace. -/
def pyStrip (s : String) : String :=
  ⟨((s.data.dropWhile isPySpace).reverse.dropWhile isPySpace).reverse⟩

/-- The per-frame description string built at lines 376-381. -/
def formatFrame (f : Frame) : String :=
  "File \"" ++ f.filename ++ "\", line " ++ toString f.lineno ++ ", in "
    ++ f.functionName ++ "\n\t" ++ pyStrip f.currentLine

/-- Embeds the backtrace loop of `Exceptional.__get_exception_data`
(lines 373-381): `for frame in traceback.frames: backtrace.insert(0, ...)`,
i.e. each processed frame is prepended to the accumulator. -/
def buildBacktrace (frames : List Frame) : List String :=
  frames.foldl (fun acc f => formatFrame f :: acc) []

/-- Everything after the first `'.'`, or `none` when no dot occurs:
the helper underlying Python's `s.split('.', 1)[-1]`. -/
def afterFirstDot : List Char → Option (List Char)
  | [] => none
  | c :: rest => if c = '.' then some rest else afterFirstDot rest

/-- Embeds the `action` field of `Exceptional.__get_request_data`
(lines 434-435):
`request.endpoint.split('.', 1)[-1] if request.endpoint else None`.
A falsy endpoint (absent or empty string) yields `none`; otherwise
`split('.', 1)` cuts at the FIRST dot and `[-1]` keeps the remainder
(the whole name when there is no dot). -/
def getAction (endpoint : Option String) : Option String :=
  match endpoint with
  | none => none
  | some e => if e = "" then none else some ⟨(afterFirstDot e.data).getD e.data⟩

/-- The collector endpoint (line 36). -/
def EXCEPTIONAL_URL : String := "http://api.exceptional.io/api/errors"

/-- The wire protocol version (line 81). -/
def protocolVersion : Nat := 5

/-- Embeds the delivery-URL resolution of `Exceptional.init_app`
(lines 83-92): `if app.debug: ... elif app.testing: ... else: ...`. -/
def initUrl (debug testing : Bool) (debugUrl : Option String)
    (apiKey : String) : Option String :=
  if debug then debugUrl
  else if testing then none
  else some (EXCEPTIONAL_URL ++ "?api_key=" ++ apiKey
      ++ "&protocol_version=" ++ toString protocolVersion)

/-- Literal starts-with matching: the behavior of `re.match` on a
pattern with no regex metacharacters.  Used to instantiate the abstract
matcher at concrete inputs. -/
def literalMatch (pat key : String) : Bool := pat.data.isPrefixOf key.data

/-- UTF-8 continuation byte (10xxxxxx). -/
def contByte (b : Nat) : Bool := 128 ≤ b && b < 192

/-- Models CPython 2's `str.decode("utf-8", "replace")`, invoked by
`_encode_basestring` (lines 268-269): strict UTF-8 decoding where every
byte that cannot start or continue a well-formed sequence contributes
the replacement character U+FFFD (65533), substituting invalid input
byte-for-byte.  Overlong encodings, truncated sequences, stray
continuation bytes, and lead bytes above 0xF4 are all invalid; values
are capped at U+10FFFF.  Input is the byte sequence of a Python `str`,
output a sequence of code points. -/
def utf8DecodeReplaceAux : Nat → List Nat → List Nat
  | _, [] => []
  | 0, _ :: _ => []
  | fuel + 1, b :: rest =>
    if b < 128 then b :: utf8DecodeReplaceAux fuel rest
    else if b < 194 then 65533 :: utf8DecodeReplaceAux fuel rest
    else if b < 224 then
      match rest with
      | b1 :: rest1 =>
        if contByte b1 then
          ((b - 192) * 64 + (b1 - 128)) :: utf8DecodeReplaceAux fuel rest1
        else 65533 :: utf8DecodeReplaceAux fuel rest
      | [] => [65533]
    else if b < 240 then
      match rest with
      | b1 :: b2 :: rest2 =>
        if contByte b1 && contByte b2 then
          if 2048 ≤ (b - 224) * 4096 + (b1 - 128) * 64 + (b2 - 128) then
            ((b - 224) * 4096 + (b1 - 128) * 64 + (b2 - 128))
              :: utf8DecodeReplaceAux fuel rest2
          else 65533 :: utf8DecodeReplaceAux fuel rest
        else 65533 :: utf8DecodeReplaceAux fuel rest
      | _ => 65533 :: utf8DecodeReplaceAux fuel rest
    else if b < 245 then
      match rest with
      | b1 :: b2 :: b3 :: rest3 =>
        if contByte b1 && contByte b2 && contByte b3 then
          if 65536 ≤ (b - 240) * 262144 + (b1 - 128) * 4096 + (b2 - 128) * 64 + (b3 - 128)
              ∧ (b - 240) * 262144 + (b1 - 128) * 4096 + (b2 - 128) * 64 + (b3 - 128) < 1114112 then
            ((b - 240) * 262144 + (b1 - 128) * 4096 + (b2 - 128) * 64 + (b3 - 128))
              :: utf8DecodeReplaceAux fuel rest3
          else 65533 :: utf8DecodeReplaceAux fuel rest
        else 65533 :: utf8DecodeReplaceAux fuel rest
      | _ => 65533 :: utf8DecodeReplaceAux fuel rest
    else 65533 :: utf8DecodeReplaceAux fuel rest

/-- Decoding with replacement of a whole byte string.  Every step
consumes at least one byte, so a fuel equal to the input length always
suffices; the fuel only serves to make the recursion structural. -/
def utf8DecodeReplace (l : List Nat) : List Nat := utf8DecodeReplaceAux l.length l

/-- Strict UTF-8 decoding of a whole byte sequence: `some` code points
when the input is well-formed UTF-8, `none` otherwise.  Models the
decoding a consumer performs when parsing the serialized report back.
Fueled like `utf8DecodeReplaceAux`; every step consumes at least one
byte, so fuel equal to the input length suffices. -/
def utf8DecodeStrictAux : Nat → List Nat → Option (List Nat)
  | _, [] => some []
  | 0, _ :: _ => none
  | fuel + 1, b :: rest =>
    if b < 128 then (utf8DecodeStrictAux fuel rest).map (fun cs => b :: cs)
    else if b < 194 then none
    else if b < 224 then
      match rest with
      | b1 :: rest1 =>
        if contByte b1 then
          (utf8DecodeStrictAux fuel rest1).map
            (fun cs => ((b - 192) * 64 + (b1 - 128)) :: cs)
        else none
      | [] => none
    else if b < 240 then
      match rest with
      | b1 :: b2 :: rest2 =>
        if contByte b1 && contByte b2 then
          if 2048 ≤ (b - 224) * 4096 + (b1 - 128) * 64 + (b2 - 128) then
            (utf8DecodeStrictAux fuel rest2).map
              (fun cs => ((b - 224) * 4096 + (b1 - 128) * 64 + (b2 - 128)) :: cs)
          else none
        else none
      | _ => none
    else if b < 245 then
      match rest with
      | b1 :: b2 :: b3 :: rest3 =>
        if contByte b1 && contByte b2 && contByte b3 then
          if 65536 ≤ (b - 240) * 262144 + (b1 - 128) * 4096 + (b2 - 128) * 64 + (b3 - 128)
              ∧ (b - 240) * 262144 + (b1 - 128) * 4096 + (b2 - 128) * 64 + (b3 - 128) < 1114112 then
            (utf8DecodeStrictAux fuel rest3).map
              (fun cs =>
                ((b - 240) * 262144 + (b1 - 128) * 4096 + (b2 - 128) * 64 + (b3 - 128)) :: cs)
          else none
        else none
      | _ => none
    else none

/-- Strict decoding of a whole byte string. -/
def utf8DecodeStrict (l : List Nat) : Option (List Nat) :=
  utf8DecodeStrictAux l.length l

/-- UTF-8 encoding of one code point below U+110000. -/
def utf8EncodeChar (c : Nat) : List Nat :=
  if c < 128 then [c]
  else if c < 2048 then [192 + c / 64, 128 + c % 64]
  else if c < 65536 then [224 + c / 4096, 128 + c / 64 % 64, 128 + c % 64]
  else [240 + c / 262144, 128 + c / 4096 % 64, 128 + c / 64 % 64, 128 + c % 64]

/-- UTF-8 encoding of a code-point sequence: models the final
`.encode("utf-8")` of `_post_data` (line 283). -/
def utf8Encode (cs : List Nat) : List Nat := (cs.map utf8EncodeChar).flatten

/-- Models `json.encoder.HAS_UTF8.search(value) is not None`
(line 267): the regex `[\x80-\xff]` finds a byte at or above 128. -/
def hasHighByte (bytes : List Nat) : Bool := bytes.any (fun b => 128 ≤ b)

/-- Lowercase hex digit, as produced by Python's `'%04x'` format. -/
def hexDigitChar (n : Nat) : Nat := if n < 10 then 48 + n else 87 + n

/-- Per-character JSON string escaping applied by
`json.encoder.ESCAPE.sub` with `ESCAPE_DCT` (lines 271-273): the regex
matches backslash, double quote and the C0 control characters; all
other characters pass through unchanged. -/
def escapeChar (c : Nat) : List Nat :=
  if c = 92 then [92, 92]
  else if c = 34 then [92, 34]
  else if c = 8 then [92, 98]
  else if c = 9 then [92, 116]
  else if c = 10 then [92, 110]
  else if c = 12 then [92, 102]
  else if c = 13 then [92, 114]
  else if c < 32 then [92, 117, 48, 48, hexDigitChar (c / 16), hexDigitChar (c % 16)]
  else [c]

/-- `ESCAPE.sub(replace, value)` over a whole code-point sequence. -/
def escapeString (cs : List Nat) : List Nat := (cs.map escapeChar).flatten

/-- Embeds `_encode_basestring` (lines 265-273): a byte string
containing a byte at or above 128 is first decoded as UTF-8 with
replacement, then JSON-escaped and wrapped in double quotes.  Returns
the code points of the resulting Python unicode string. -/
def encodeBasestring (bytes : List Nat) : List Nat :=
  34 :: escapeString (if hasHighByte bytes then utf8DecodeReplace bytes else bytes) ++ [34]

/-- The UTF-8 bytes a string field contributes to the serialized
report: `_encode_basestring` output passed through `.encode("utf-8")`. -/
def serializeStringField (bytes : List Nat) : List Nat :=
  utf8Encode (encodeBasestring bytes)

/-- Value of one hex digit character, `none` for a non-hex character. -/
def hexVal (c : Nat) : Option Nat :=
  if 48 ≤ c ∧ c ≤ 57 then some (c - 48)
  else if 97 ≤ c ∧ c ≤ 102 then some (c - 87)
  else if 65 ≤ c ∧ c ≤ 70 then some (c - 55)
  else none

/-- JSON string-body parser: consumes code points up to an unescaped
closing quote, resolving the standard JSON escapes, and returns the
decoded content together with the remainder after the closing quote.
Unescaped control characters and malformed escapes are rejected. -/
def parseStringBody : List Nat → Option (List Nat × List Nat)
  | [] => none
  | c :: rest =>
    if c = 34 then some ([], rest)
    else if c = 92 then
      match rest with
      | [] => none
      | e :: rest2 =>
        if e = 34 then (parseStringBody rest2).map (fun p => (34 :: p.1, p.2))
        else if e = 92 then (parseStringBody rest2).map (fun p => (92 :: p.1, p.2))
        else if e = 47 then (parseStringBody rest2).map (fun p => (47 :: p.1, p.2))
        else if e = 98 then (parseStringBody rest2).map (fun p => (8 :: p.1, p.2))
        else if e = 102 then (parseStringBody rest2).map (fun p => (12 :: p.1, p.2))
        else if e = 110 then (parseStringBody rest2).map (fun p => (10 :: p.1, p.2))
        else if e = 114 then (parseStringBody rest2).map (fun p => (13 :: p.1, p.2))
        else if e = 116 then (parseStringBody rest2).map (fun p => (9 :: p.1, p.2))
        else if e = 117 then
          match rest2 with
          | h1 :: h2 :: h3 :: h4 :: rest3 =>
            match hexVal h1, hexVal h2, hexVal h3, hexVal h4 with
            | some v1, some v2, some v3, some v4 =>
              (parseStringBody rest3).map
                (fun p => ((((v1 * 16 + v2) * 16 + v3) * 16 + v4) :: p.1, p.2))
            | _, _, _, _ => none
          | _ => none
        else none
    else if c < 32 then none
    else (parseStringBody rest).map (fun p => (c :: p.1, p.2))

/-- Parsing a serialized JSON string field back: decode the bytes as
strict UTF-8, require an opening quote, and parse the body up to the
closing quote with nothing following it. -/
def parseJsonString (bytes : List Nat) : Option (List Nat) :=
  (utf8DecodeStrict bytes).bind (fun cs =>
    match cs with
    | 34 :: rest =>
      match parseStringBody rest with
      | some (content, []) => some content
      | _ => none
    | _ => none)

/-- Lower-case an ASCII letter, for werkzeug's case-insensitive header
keys (`Headers.__setitem__` matches `key.lower()`). -/
def lowerChar (c : Char) : Char :=
  if 65 ≤ c.toNat && c.toNat ≤ 90 then Char.ofNat (c.toNat + 32) else c

/-- Case-insensitive header-key equality, as used by werkzeug `Headers`. -/
def headerKeyEq (a b : String) : Bool :=
  (a.data.map lowerChar) == (b.data.map lowerChar)

/-- Embeds `headers["Cookie"] = value` on a werkzeug `Headers` object
(line 424): the first entry with a matching key is replaced in place,
any later matching entries are dropped, and a missing key is appended. -/
def setHeader (hs : List (String × String)) (k v : String) :
    List (String × String) :=
  match hs with
  | [] => [(k, v)]
  | (k0, v0) :: rest =>
      if headerKeyEq k0 k then
        (k, v) :: rest.filter (fun kv => !(headerKeyEq kv.1 k))
      else
        (k0, v0) :: setHeader rest k v

/-- Characters the stdlib `Cookie` module serializes without quoting
(`Cookie.LegalChars`: ASCII letters, digits, and
`! # $ % & ' * + - . ^ _ backquote | ~ :`). -/
def cookieLegalChar (c : Char) : Bool :=
  c.isAlpha || c.isDigit ||
    [33, 35, 36, 37, 38, 39, 42, 43, 45, 46, 94, 95, 96, 124, 126, 58].contains c.toNat

/-- Three-digit octal escape body used by `Cookie._Translator`. -/
def octal3 (n : Nat) : List Char :=
  [Char.ofNat (48 + n / 64 % 8), Char.ofNat (48 + n / 8 % 8), Char.ofNat (48 + n % 8)]

/-- Per-character translation applied inside a quoted cookie value
(`Cookie._Translator`): backslash-escape `"` and `\\`, octal-escape
control and non-ASCII bytes, pass everything else through. -/
def cookieTranslateChar (c : Char) : List Char :=
  if c.toNat = 34 then [Char.ofNat 92, Char.ofNat 34]
  else if c.toNat = 92 then [Char.ofNat 92, Char.ofNat 92]
  else if c.toNat < 32 || (127 ≤ c.toNat && c.toNat ≤ 255) then
    Char.ofNat 92 :: octal3 c.toNat
  else [c]

/-- `Cookie._quote`: a value made only of legal characters is emitted
as-is, anything else is wrapped in double quotes with translation. -/
def quoteCookieValue (s : String) : String :=
  if s.data.all cookieLegalChar then s
  else ⟨Char.ofNat 34 :: (s.data.map cookieTranslateChar).flatten ++ [Char.ofNat 34]⟩

/-- One `key=value` item of `SimpleCookie.output` (`Morsel.OutputString`
with no attributes). -/
def morselOutput (kv : String × String) : String :=
  kv.1 ++ "=" ++ quoteCookieValue kv.2

/-- Embeds `SimpleCookie().output(header='', sep=';').strip()`
(lines 419-424): items are sorted by key, each rendered as
`" key=value"` (empty header plus a space), joined with `";"`, and the
result stripped. -/
def cookieHeaderValue (cookies : List (String × String)) : String :=
  pyStrip (String.intercalate ";"
    ((cookies.insertionSort (fun a b => a.1 ≤ b.1)).map
      (fun kv => " " ++ morselOutput kv)))

/-- Embeds the header block of `Exceptional.__get_request_data`
(lines 415-426): with at least one cookie, the cookie mapping is
filtered with the cookie filter and the `Cookie` header is regenerated
from the filtered set; with no cookies the request's headers are used
unchanged. -/
def getRequestHeaders (m : String → String → Bool)
    (cookieRules : Option (List String))
    (reqHeaders reqCookies : List (String × String)) :
    List (String × String) :=
  if reqCookies.isEmpty then reqHeaders
  else
    setHeader reqHeaders "Cookie"
      (cookieHeaderValue (filter m cookieRules reqCookies))

/-- Outcome of the single `urlopen` delivery attempt in `_post_data`
(lines 300-311), covering the response classes the code handles. -/
inductive DeliverOutcome
  | success
  | httpError (code : Nat)
  | urlError
  | badStatusLine

/-- Embeds the delivery exception handling of `_post_data`
(lines 300-311).  An `HTTPError` with code below 400 is swallowed by
the inner handler; one with code 400 or above is re-raised at line 305
but `HTTPError` is a subclass of `URLError`, so the outer handler
catches it and logs a warning (line 308).  A connection-level
`URLError` is logged; a `BadStatusLine` is ignored.  No delivery
outcome escapes the block. -/
def handleDelivery : DeliverOutcome → Except String Unit
  | .success => .ok ()
  | .httpError code =>
      if 400 ≤ code then .ok () else .ok ()
  | .urlError => .ok ()
  | .badStatusLine => .ok ()

/-- The five-section report tree assembled at lines 277-283. -/
structure Report where
  applicationEnvironment : String
  clientVersion : String
  requestData : Option String
  exceptionData : String
  contextData : Option String

/-- The collaborator behaviors `_post_data` invokes.  Each `Except`
value models a call into repository or host code that may raise a
Python exception; the source wraps NONE of them in a `try` block (the
only `try` statements in `_post_data` are the `finally` that restores
the JSON encoder, which catches nothing, and the delivery block). -/
structure PipelineEnv where
  applicationData : Except String String
  clientVersion : Except String String
  requestData : Except String String
  contextData : Option String
  exceptionData : Except String String
  serialize : Report → Except String (List Nat)
  delivery : DeliverOutcome

/-- Embeds `Exceptional._post_data` (lines 228-313): section
extraction, report assembly, serialization, the testing-mode side
effect, and guarded delivery, in source order.  `hasContext` models a
live request context; a `none` url skips delivery entirely. -/
def postData (env : PipelineEnv) (hasContext : Bool)
    (url : Option String) : Except String (List Nat) := do
  let appData ← env.applicationData
  let ver ← env.clientVersion
  let req ← if hasContext then Except.map some env.requestData else pure none
  let exc ← env.exceptionData
  let payload ← env.serialize
    ⟨appData, ver, req, exc, if hasContext then env.contextData else none⟩
  match url with
  | some _ => do
      handleDelivery env.delivery
      pure payload
  | none => pure payload

/-! ## Helper lemmas -/

theorem foldl_prepend {α β : Type} (g : α → β) :
    ∀ (l : List α) (acc : List β),
      l.foldl (fun a x => g x :: a) acc = (l.map g).reverse ++ acc := by
  intro l
  induction l with
  | nil => intro acc; rfl
  | cons x xs ih =>
      intro acc
      simp [List.foldl_cons, ih (g x :: acc)]

theorem handleDelivery_ok (o : DeliverOutcome) : handleDelivery o = .ok () := by
  cases o <;> simp [handleDelivery]

/-! ## Claim theorems (field filter, parameters, HTTP codes, backtrace,
action, delivery URL, pipeline) -/

/-- C1: for every input mapping and configured filter list, an entry
whose key is matched by some pattern gets the redaction marker, an
unmatched entry keeps its value, and a missing or empty rule list
returns the input mapping unchanged (the embedding is pure, so the
input is never mutated and the result is a fresh mapping of the same
length and key order). -/
theorem claim_c1_filter (m : String → String → Bool)
    (rules : Option (List String)) (data : List (String × String)) :
    (filter m rules data).length = data.length ∧
    (∀ (i : Nat) k v, data[i]? = some (k, v) →
      (filter m rules data)[i]? =
        some (k, if (rules.getD []).any (fun p => m p k) then FILTERED else v)) ∧
    (rules.getD [] = [] → filter m rules data = data) := by
  match rules with
  | none =>
      refine ⟨rfl, ?_, fun _ => rfl⟩
      intro i k v h
      simpa [filter] using h
  | some [] =>
      refine ⟨rfl, ?_, fun _ => rfl⟩
      intro i k v h
      simpa [filter] using h
  | some (p :: ps) =>
      refine ⟨by simp [filter], ?_, by simp⟩
      intro i k v h
      simp only [filter, List.getElem?_map, h, Option.map_some]
      show some (if ((p :: ps).any fun pat => m pat k) = true then (k, FILTERED) else (k, v))
          = some (k, if ((p :: ps).any fun pat => m pat k) = true then FILTERED else v)
      by_cases hm : ((p :: ps).any fun pat => m pat k) = true
      · rw [if_pos hm, if_pos hm]
      · rw [if_neg hm, if_neg hm]

/-- C1 witness: literal instantiation from the spec,
filter=["Host"], headers Host/Accept. -/
theorem claim_c1_filter_witness :
    (filter literalMatch (some ["Host"])
        [("Host", "example.com"), ("Accept", "*/*")])[0]? = some ("Host", FILTERED) ∧
    (filter literalMatch (some ["Host"])
        [("Host", "example.com"), ("Accept", "*/*")])[1]? = some ("Accept", "*/*") := by
  have h := claim_c1_filter literalMatch (some ["Host"])
    [("Host", "example.com"), ("Accept", "*/*")]
  constructor
  · have h0 := h.2.1 0 "Host" "example.com" (by decide)
    rw [h0, if_pos (by decide)]
  · have h1 := h.2.1 1 "Accept" "*/*" (by decide)
    rw [h1, if_neg (by decide)]

/-- C4: parameter seeding never raises; a successful parse to a JSON
mapping seeds `parameters` with that mapping, a parse failure seeds the
single INVALID_JSON entry carrying the raw body, and an unattempted
parse seeds the empty mapping. -/
theorem claim_c4_parameters (requestJson : Except Unit (Option Json)) (raw : String) :
    (∀ fields, requestJson = .ok (some (.obj fields)) →
      seedParameters requestJson raw = .obj fields) ∧
    (requestJson = .error () →
      seedParameters requestJson raw = .obj [("INVALID_JSON", .str raw)]) ∧
    (requestJson = .ok none → seedParameters requestJson raw = .obj []) := by
  refine ⟨?_, ?_, ?_⟩
  · rintro fields rfl
    cases fields with
    | nil => rfl
    | cons f fs => rfl
  · rintro rfl; rfl
  · rintro rfl; rfl

/-- C4 witness: the spec's literal inputs, a parsed
`{"foo": {"bar": "baz"}}` body and an invalid body. -/
theorem claim_c4_parameters_witness :
    seedParameters (.ok (some (.obj [("foo", Json.obj [("bar", Json.str "baz")])]))) ""
        = .obj [("foo", Json.obj [("bar", Json.str "baz")])] ∧
    seedParameters (.error ()) "not json"
        = .obj [("INVALID_JSON", Json.str "not json")] ∧
    seedParameters (.ok none) "" = .obj [] :=
  ⟨(claim_c4_parameters _ "").1 _ rfl,
   (claim_c4_parameters _ "not json").2.1 rfl,
   (claim_c4_parameters _ "").2.2 rfl⟩

/-- C10: a body that parses to a falsy JSON value (null, false, 0, an
empty object or an empty array) seeds `parameters` with the empty
mapping, indistinguishable from the case where no JSON parse was
attempted, so the falsy value itself never reaches the report. -/
theorem claim_c10_falsy_json (raw : String) (v : Json)
    (h : v = .null ∨ v = .bool false ∨ v = .num 0 ∨ v = .obj [] ∨ v = .arr []) :
    seedParameters (.ok (some v)) raw = .obj [] ∧
    seedParameters (.ok (some v)) raw = seedParameters (.ok none) raw := by
  rcases h with rfl | rfl | rfl | rfl | rfl <;> exact ⟨rfl, rfl⟩

/-- C10 witness: a body parsing to JSON null. -/
theorem claim_c10_falsy_json_witness :
    seedParameters (.ok (some .null)) "null" = .obj [] ∧
    seedParameters (.ok (some .null)) "null" = seedParameters (.ok none) "null" :=
  claim_c10_falsy_json "null" .null (.inl rfl)

/-- C6 counterexample: when the status code is in the tracked set and
the `_post_data` call raises (which it can, see the C2 analysis), the
wrapped handler propagates that exception and the original HTTP
exception handling never runs — refuting the claim's "the original
HTTP exception handling still runs in either case". -/
theorem claim_c6_counterexample :
    (httpExceptionHandler defaultHttpCodes
        (Except.error "exception inside _post_data") (fun c => c) 404).2
      = Except.error "exception inside _post_data" ∧
    (httpExceptionHandler defaultHttpCodes
        (Except.error "exception inside _post_data") (fun c => c) 404).2
      ≠ Except.ok 404 := by
  exact ⟨rfl, fun h => Except.noConfusion h⟩

/-- C6 (amended): the wrapped HTTP exception handler invokes the report
pipeline exactly when the status code is in the configured set, whose
default is exactly the integers 400 through 417; a code outside the
set produces no report and the original handling runs; when a report
is attempted, the original handling runs provided the pipeline call
returns normally — a pipeline exception propagates instead and
pre-empts it. -/
theorem claim_c6_http_codes {α : Type} (codes : List Nat)
    (post : Except String (List Nat)) (orig : Nat → α) (code : Nat) :
    ((httpExceptionHandler codes post orig code).1 = true ↔ code ∈ codes) ∧
    (code ∉ codes →
      (httpExceptionHandler codes post orig code).2 = .ok (orig code)) ∧
    (∀ payload, post = .ok payload →
      (httpExceptionHandler codes post orig code).2 = .ok (orig code)) ∧
    (∀ e, code ∈ codes → post = .error e →
      (httpExceptionHandler codes post orig code).2 = .error e) ∧
    (∀ n, n ∈ defaultHttpCodes ↔ 400 ≤ n ∧ n ≤ 417) := by
  refine ⟨?_, ?_, ?_, ?_, ?_⟩
  · unfold httpExceptionHandler
    split <;> simp_all
  · intro h
    rw [httpExceptionHandler, if_neg (by simpa using h)]
  · rintro payload rfl
    unfold httpExceptionHandler
    split <;> rfl
  · rintro e hmem rfl
    rw [httpExceptionHandler, if_pos (by simpa using hmem)]
    rfl
  · intro n
    simp only [defaultHttpCodes, List.mem_range']
    constructor
    · rintro ⟨i, hi, rfl⟩; omega
    · intro h; exact ⟨n - 400, by omega, by omega⟩

/-- C6 witness: with the report pipeline returning normally, 404 is
reported and the original handler runs; 500 is not reported under the
default codes and the original handler runs. -/
theorem claim_c6_http_codes_witness :
    (httpExceptionHandler defaultHttpCodes
        (postData ⟨.ok "app", .ok "client", .ok "req", none, .ok "exc",
          fun _ => .ok [123], .success⟩ true (some "http://api.exceptional.io/api/errors"))
        (fun c => c) 404).1 = true ∧
    (httpExceptionHandler defaultHttpCodes
        (postData ⟨.ok "app", .ok "client", .ok "req", none, .ok "exc",
          fun _ => .ok [123], .success⟩ true (some "http://api.exceptional.io/api/errors"))
        (fun c => c) 404).2 = .ok 404 ∧
    (httpExceptionHandler defaultHttpCodes
        (postData ⟨.ok "app", .ok "client", .ok "req", none, .ok "exc",
          fun _ => .ok [123], .success⟩ true (some "http://api.exceptional.io/api/errors"))
        (fun c => c) 500).1 = false ∧
    (httpExceptionHandler defaultHttpCodes
        (postData ⟨.ok "app", .ok "client", .ok "req", none, .ok "exc",
          fun _ => .ok [123], .success⟩ true (some "http://api.exceptional.io/api/errors"))
        (fun c => c) 500).2 = .ok 500 := by
  have h404 := claim_c6_http_codes defaultHttpCodes
    (postData ⟨.ok "app", .ok "client", .ok "req", none, .ok "exc",
      fun _ => .ok [123], .success⟩ true (some "http://api.exceptional.io/api/errors"))
    (fun c => c) 404
  have h500 := claim_c6_http_codes defaultHttpCodes
    (postData ⟨.ok "app", .ok "client", .ok "req", none, .ok "exc",
      fun _ => .ok [123], .success⟩ true (some "http://api.exceptional.io/api/errors"))
    (fun c => c) 500
  refine ⟨h404.1.mpr (by decide), h404.2.2.1 [123] rfl, ?_, h500.2.1 (by decide)⟩
  cases hb : (httpExceptionHandler defaultHttpCodes
      (postData ⟨.ok "app", .ok "client", .ok "req", none, .ok "exc",
        fun _ => .ok [123], .success⟩ true (some "http://api.exceptional.io/api/errors"))
      (fun c => c) 500).1 with
  | false => rfl
  | true => exact absurd (h500.1.mp hb) (by decide)

/-- C7 counterexample: with two distinct frames, the first element of
the built backtrace is the description of the LAST frame encountered in
the input sequence, not the first as the claim states. -/
theorem claim_c7_counterexample :
    (buildBacktrace [⟨"a.py", 1, "outer", "outer_call()"⟩,
        ⟨"b.py", 2, "inner", "inner_call()"⟩]).head?
      = some (formatFrame ⟨"b.py", 2, "inner", "inner_call()"⟩) ∧
    formatFrame ⟨"b.py", 2, "inner", "inner_call()"⟩
      ≠ formatFrame ⟨"a.py", 1, "outer", "outer_call()"⟩ := by
  exact ⟨rfl, by decide⟩

/-- C7 (amended): the extractor prepends each processed frame, so the
built backtrace is the reverse of the input frame sequence: its first
element describes the last frame encountered and its last element
describes the first frame encountered — the outermost frame, since the
trace collaborator lists frames outermost-first. -/
theorem claim_c7_backtrace (frames : List Frame) :
    buildBacktrace frames = (frames.map formatFrame).reverse ∧
    (∀ f rest, frames = f :: rest →
      (buildBacktrace frames).getLast? = some (formatFrame f)) ∧
    (∀ f, frames.getLast? = some f →
      (buildBacktrace frames).head? = some (formatFrame f)) := by
  have hmain : buildBacktrace frames = (frames.map formatFrame).reverse := by
    have := foldl_prepend formatFrame frames []
    simpa [buildBacktrace] using this
  refine ⟨hmain, ?_, ?_⟩
  · rintro f rest rfl
    rw [hmain]
    simp [List.getLast?_reverse]
  · intro f hf
    rw [hmain, List.head?_reverse]
    rw [List.getLast?_map, hf]
    rfl

/-- C7 witness: two concrete frames, reversed order observed at both
ends of the backtrace. -/
theorem claim_c7_backtrace_witness :
    (buildBacktrace [⟨"app.py", 10, "view", "render()"⟩,
        ⟨"lib.py", 20, "render", "boom()"⟩]).getLast?
      = some (formatFrame ⟨"app.py", 10, "view", "render()"⟩) ∧
    (buildBacktrace [⟨"app.py", 10, "view", "render()"⟩,
        ⟨"lib.py", 20, "render", "boom()"⟩]).head?
      = some (formatFrame ⟨"lib.py", 20, "render", "boom()"⟩) := by
  have h := claim_c7_backtrace
    [⟨"app.py", 10, "view", "render()"⟩, ⟨"lib.py", 20, "render", "boom()"⟩]
  exact ⟨h.2.1 _ _ rfl, h.2.2 _ rfl⟩

/-- C8 counterexample: for the endpoint name "a.b.c" the code yields
"b.c" (everything after the first dot), not the last dot-delimited
segment "c" the claim states. -/
theorem claim_c8_counterexample :
    getAction (some "a.b.c") = some "b.c" ∧ ("b.c" : String) ≠ "c" := by
  exact ⟨by decide, by decide⟩

/-- C8 (amended): `action` is derived from the endpoint name by
splitting at the FIRST dot and keeping the remainder (the whole name
when it contains no dot); a missing or empty endpoint yields null. -/
theorem claim_c8_action :
    getAction none = none ∧
    getAction (some "") = none ∧
    (∀ pre post : List Char, ('.' : Char) ∉ pre →
      afterFirstDot (pre ++ '.' :: post) = some post) ∧
    (∀ cs : List Char, ('.' : Char) ∉ cs → afterFirstDot cs = none) ∧
    (∀ e : String, e ≠ "" →
      getAction (some e) = some ⟨(afterFirstDot e.data).getD e.data⟩) := by
  refine ⟨rfl, rfl, ?_, ?_, ?_⟩
  · intro pre post hpre
    induction pre with
    | nil => simp [afterFirstDot]
    | cons c pre ih =>
        have hc : c ≠ '.' := fun h => hpre (h ▸ List.mem_cons_self c pre)
        simp only [List.cons_append, afterFirstDot, if_neg hc]
        exact ih (fun h => hpre (List.mem_cons_of_mem c h))
  · intro cs hcs
    induction cs with
    | nil => rfl
    | cons c cs ih =>
        have hc : c ≠ '.' := fun h => hcs (h ▸ List.mem_cons_self c cs)
        simp only [afterFirstDot, if_neg hc]
        exact ih (fun h => hcs (List.mem_cons_of_mem c h))
  · intro e he
    simp [getAction, he]

/-- C8 witness: applying the amended characterization at the endpoint
"a.b.c". -/
theorem claim_c8_action_witness :
    afterFirstDot ('a' :: '.' :: 'b' :: '.' :: 'c' :: []) = some ('b' :: '.' :: 'c' :: []) ∧
    getAction (some "a.b.c") = some ⟨(afterFirstDot "a.b.c".data).getD "a.b.c".data⟩ := by
  constructor
  · have h := claim_c8_action.2.2.1 ['a'] ('b' :: '.' :: 'c' :: []) (by decide)
    simpa using h
  · exact claim_c8_action.2.2.2.2 "a.b.c" (by decide)

/-- C9 counterexample: with debug and testing both set and a debug URL
configured, the host is in testing mode yet the resolved URL is the
debug URL, not None as the claim requires. -/
theorem claim_c9_counterexample :
    initUrl true true (some "http://localhost/errors") "key"
        = some "http://localhost/errors" ∧
    initUrl true true (some "http://localhost/errors") "key" ≠ none := by
  exact ⟨rfl, by simp [initUrl]⟩

/-- C9 (amended): the delivery URL is None in exactly two cases —
debug mode with no debug URL configured, or testing mode while NOT in
debug mode (the debug branch is checked first); in debug mode it equals
the configured debug URL, and with neither debug nor testing set it is
the collector URL carrying the API key and protocol version as query
parameters. -/
theorem claim_c9_url (debug testing : Bool) (debugUrl : Option String)
    (apiKey : String) :
    (initUrl debug testing debugUrl apiKey = none ↔
      ((debug = true ∧ debugUrl = none) ∨ (debug = false ∧ testing = true))) ∧
    (debug = true → initUrl debug testing debugUrl apiKey = debugUrl) ∧
    (debug = false → testing = false →
      initUrl debug testing debugUrl apiKey
        = some (EXCEPTIONAL_URL ++ "?api_key=" ++ apiKey
            ++ "&protocol_version=" ++ toString protocolVersion)) := by
  cases debug <;> cases testing <;> cases debugUrl <;> simp [initUrl]

/-- C9 witness: production, debug, and testing-without-debug resolutions. -/
theorem claim_c9_url_witness :
    initUrl false false none "key"
        = some (EXCEPTIONAL_URL ++ "?api_key=" ++ "key"
            ++ "&protocol_version=" ++ toString protocolVersion) ∧
    initUrl true false (some "http://localhost/errors") "key"
        = some "http://localhost/errors" ∧
    initUrl false true (some "http://localhost/errors") "key" = none := by
  refine ⟨(claim_c9_url false false none "key").2.2 rfl rfl,
    (claim_c9_url true false (some "http://localhost/errors") "key").2.1 rfl,
    (claim_c9_url false true (some "http://localhost/errors") "key").1.mpr
      (Or.inr ⟨rfl, rfl⟩)⟩

/-- C2 counterexample: `_post_data` wraps no outermost guard around
section extraction, assembly, or serialization, so a collaborator
failure there propagates to the caller: with the application-data
extractor raising, the pipeline call itself raises. -/
theorem claim_c2_counterexample :
    postData
      ⟨.error "exception inside __get_application_data",
       .ok "client", .ok "request", none, .ok "exception",
       fun _ => .ok [123], .success⟩
      true (some "http://api.exceptional.io/api/errors")
      = .error "exception inside __get_application_data" := rfl

/-- C2 (amended): only delivery failures are contained — when section
extraction and serialization succeed, the pipeline returns the payload
for EVERY delivery outcome (HTTP error of any code, connection failure,
malformed status line) and every URL configuration; failures in
section extraction, report assembly, or serialization, by contrast,
propagate to the caller (see the counterexample). -/
theorem claim_c2_pipeline (a v r e : String) (ctx : Option String)
    (ser : Report → Except String (List Nat)) (payload : List Nat)
    (hasContext : Bool) (url : Option String) (d : DeliverOutcome)
    (hser : ser ⟨a, v, if hasContext then some r else none, e,
        if hasContext then ctx else none⟩ = .ok payload) :
    postData ⟨.ok a, .ok v, .ok r, ctx, .ok e, ser, d⟩ hasContext url
      = .ok payload := by
  cases hasContext <;> cases url <;>
    simp_all [postData, handleDelivery_ok, Except.map, Bind.bind, Except.bind,
      Pure.pure, Except.pure]

/-- C2 witness: a concrete pipeline whose delivery attempt gets an
HTTP 500 from the collector still returns the payload. -/
theorem claim_c2_pipeline_witness :
    postData
      ⟨.ok "app", .ok "0.5.5", .ok "req", some "ctx", .ok "exc",
       fun _ => .ok [123], .httpError 500⟩
      true (some "http://api.exceptional.io/api/errors")
      = .ok [123] :=
  claim_c2_pipeline "app" "0.5.5" "req" "exc" (some "ctx")
    (fun _ => .ok [123]) [123] true
    (some "http://api.exceptional.io/api/errors") (.httpError 500) rfl

/-- C5: with at least one cookie, the headers are the request's headers
with the `Cookie` header replaced by a value regenerated purely from
the cookie-filtered cookie set, in which every key matched by a cookie
filter pattern carries the redaction marker and every unmatched entry
is an original cookie entry; with no cookies, the request's headers are
used unchanged. -/
theorem claim_c5_cookie_headers (m : String → String → Bool)
    (rules : Option (List String)) (headers cookies : List (String × String)) :
    (cookies = [] → getRequestHeaders m rules headers cookies = headers) ∧
    (cookies ≠ [] →
      getRequestHeaders m rules headers cookies
        = setHeader headers "Cookie" (cookieHeaderValue (filter m rules cookies))) ∧
    (∀ k v, (k, v) ∈ filter m rules cookies →
      (((rules.getD []).any fun p => m p k) = true → v = FILTERED) ∧
      (((rules.getD []).any fun p => m p k) = false → (k, v) ∈ cookies)) := by
  refine ⟨?_, ?_, ?_⟩
  · rintro rfl; rfl
  · intro h
    rw [getRequestHeaders, if_neg (by simpa [List.isEmpty_iff] using h)]
  · intro k v hmem
    match rules with
    | none => exact ⟨fun h => by simp at h, fun _ => hmem⟩
    | some [] => exact ⟨fun h => by simp at h, fun _ => hmem⟩
    | some (p :: ps) =>
        simp only [filter, List.mem_map] at hmem
        obtain ⟨⟨k0, v0⟩, hk0, heq⟩ := hmem
        by_cases hc : ((p :: ps).any fun pat => m pat k0) = true
        · rw [if_pos hc, Prod.mk.injEq] at heq
          obtain ⟨rfl, rfl⟩ := heq
          refine ⟨fun _ => rfl, fun hfalse => ?_⟩
          simp only [Option.getD_some] at hfalse
          rw [hfalse] at hc
          cases hc
        · rw [if_neg hc, Prod.mk.injEq] at heq
          obtain ⟨rfl, rfl⟩ := heq
          refine ⟨fun htrue => absurd htrue (by simpa using hc), fun _ => hk0⟩

/-- C5 witness: a matched session cookie and an unmatched theme cookie. -/
theorem claim_c5_cookie_headers_witness :
    getRequestHeaders literalMatch (some ["session"])
        [("Host", "example.com"), ("Cookie", "session=secret; theme=dark")]
        [("theme", "dark"), ("session", "secret")]
      = setHeader [("Host", "example.com"), ("Cookie", "session=secret; theme=dark")]
          "Cookie"
          (cookieHeaderValue (filter literalMatch (some ["session"])
            [("theme", "dark"), ("session", "secret")])) ∧
    ("theme", "dark") ∈ [("theme", "dark"), ("session", "secret")] := by
  have h := claim_c5_cookie_headers literalMatch (some ["session"])
    [("Host", "example.com"), ("Cookie", "session=secret; theme=dark")]
    [("theme", "dark"), ("session", "secret")]
  exact ⟨h.2.1 (by simp), (h.2.2 "theme" "dark" (by decide)).2 (by decide)⟩

theorem contByte_true {b : Nat} (h : contByte b = true) : 128 ≤ b ∧ b < 192 := by
  simpa [contByte, Bool.and_eq_true, decide_eq_true_iff] using h

theorem utf8DecodeReplaceAux_lt :
    ∀ fuel l, ∀ c ∈ utf8DecodeReplaceAux fuel l, c < 1114112 := by
  intro fuel l
  induction fuel, l using utf8DecodeReplaceAux.induct
  case case1 t =>
    intro c hc
    simp only [utf8DecodeReplaceAux, List.not_mem_nil] at hc
  case case2 hd tl =>
    intro c hc
    simp only [utf8DecodeReplaceAux, List.not_mem_nil] at hc
  case case3 fuel b rest h ih =>
    intro c hc
    simp only [utf8DecodeReplaceAux, if_pos h] at hc
    rcases List.mem_cons.mp hc with rfl | hm
    · omega
    · exact ih c hm
  case case4 fuel b rest h1 h2 ih =>
    intro c hc
    simp only [utf8DecodeReplaceAux, if_neg h1, if_pos h2] at hc
    rcases List.mem_cons.mp hc with rfl | hm
    · omega
    · exact ih c hm
  case case5 fuel b h1 h2 h3 b1 rest1 hcont ih =>
    intro c hc
    simp only [utf8DecodeReplaceAux, if_neg h1, if_neg h2, if_pos h3, if_pos hcont] at hc
    rcases List.mem_cons.mp hc with rfl | hm
    · have := contByte_true hcont
      omega
    · exact ih c hm
  case case6 fuel b h1 h2 h3 b1 rest1 hcont ih =>
    intro c hc
    simp only [utf8DecodeReplaceAux, if_neg h1, if_neg h2, if_pos h3, if_neg hcont] at hc
    rcases List.mem_cons.mp hc with rfl | hm
    · omega
    · exact ih c hm
  case case7 fuel b h1 h2 h3 =>
    intro c hc
    simp only [utf8DecodeReplaceAux, if_neg h1, if_neg h2, if_pos h3,
      List.mem_singleton] at hc
    omega
  case case8 fuel b h1 h2 h3 h4 b1 b2 rest2 hcont hrange ih =>
    intro c hc
    simp only [utf8DecodeReplaceAux, if_neg h1, if_neg h2, if_neg h3, if_pos h4,
      if_pos hcont, if_pos hrange] at hc
    rcases List.mem_cons.mp hc with rfl | hm
    · obtain ⟨hc1, hc2⟩ := Bool.and_eq_true .. |>.mp hcont
      have := contByte_true hc1
      have := contByte_true hc2
      omega
    · exact ih c hm
  case case9 fuel b h1 h2 h3 h4 b1 b2 rest2 hcont hrange ih =>
    intro c hc
    simp only [utf8DecodeReplaceAux, if_neg h1, if_neg h2, if_neg h3, if_pos h4,
      if_pos hcont, if_neg hrange] at hc
    rcases List.mem_cons.mp hc with rfl | hm
    · omega
    · exact ih c hm
  case case10 fuel b h1 h2 h3 h4 b1 b2 rest2 hcont ih =>
    intro c hc
    simp only [utf8DecodeReplaceAux, if_neg h1, if_neg h2, if_neg h3, if_pos h4,
      if_neg hcont] at hc
    rcases List.mem_cons.mp hc with rfl | hm
    · omega
    · exact ih c hm
  case case11 fuel b rest h1 h2 h3 h4 hx ih =>
    intro c hc
    match rest, hx with
    | [], _ =>
        simp only [utf8DecodeReplaceAux, if_neg h1, if_neg h2, if_neg h3, if_pos h4] at hc
        rcases List.mem_cons.mp hc with rfl | hm
        · omega
        · exact absurd hm (List.not_mem_nil c)
    | [b1], _ =>
        simp only [utf8DecodeReplaceAux, if_neg h1, if_neg h2, if_neg h3, if_pos h4] at hc
        rcases List.mem_cons.mp hc with rfl | hm
        · omega
        · exact ih c hm
    | b1 :: b2 :: rest2, hx => exact absurd rfl (hx b1 b2 rest2)
  case case12 fuel b h1 h2 h3 h4 h5 b1 b2 b3 rest3 hcont hrange ih =>
    intro c hc
    simp only [utf8DecodeReplaceAux, if_neg h1, if_neg h2, if_neg h3, if_neg h4,
      if_pos h5, if_pos hcont, if_pos hrange] at hc
    rcases List.mem_cons.mp hc with rfl | hm
    · exact hrange.2
    · exact ih c hm
  case case13 fuel b h1 h2 h3 h4 h5 b1 b2 b3 rest3 hcont hrange ih =>
    intro c hc
    simp only [utf8DecodeReplaceAux, if_neg h1, if_neg h2, if_neg h3, if_neg h4,
      if_pos h5, if_pos hcont, if_neg hrange] at hc
    rcases List.mem_cons.mp hc with rfl | hm
    · omega
    · exact ih c hm
  case case14 fuel b h1 h2 h3 h4 h5 b1 b2 b3 rest3 hcont ih =>
    intro c hc
    simp only [utf8DecodeReplaceAux, if_neg h1, if_neg h2, if_neg h3, if_neg h4,
      if_pos h5, if_neg hcont] at hc
    rcases List.mem_cons.mp hc with rfl | hm
    · omega
    · exact ih c hm
  case case15 fuel b rest h1 h2 h3 h4 h5 hx ih =>
    intro c hc
    match rest, hx with
    | [], _ =>
        simp only [utf8DecodeReplaceAux, if_neg h1, if_neg h2, if_neg h3, if_neg h4,
          if_pos h5] at hc
        rcases List.mem_cons.mp hc with rfl | hm
        · omega
        · exact absurd hm (List.not_mem_nil c)
    | [b1], _ =>
        simp only [utf8DecodeReplaceAux, if_neg h1, if_neg h2, if_neg h3, if_neg h4,
          if_pos h5] at hc
        rcases List.mem_cons.mp hc with rfl | hm
        · omega
        · exact ih c hm
    | [b1, b2], _ =>
        simp only [utf8DecodeReplaceAux, if_neg h1, if_neg h2, if_neg h3, if_neg h4,
          if_pos h5] at hc
        rcases List.mem_cons.mp hc with rfl | hm
        · omega
        · exact ih c hm
    | b1 :: b2 :: b3 :: rest3, hx => exact absurd rfl (hx b1 b2 b3 rest3)
  case case16 fuel b rest h1 h2 h3 h4 h5 ih =>
    intro c hc
    simp only [utf8DecodeReplaceAux, if_neg h1, if_neg h2, if_neg h3, if_neg h4,
      if_neg h5] at hc
    rcases List.mem_cons.mp hc with rfl | hm
    · omega
    · exact ih c hm

theorem utf8DecodeReplace_lt (l : List Nat) :
    ∀ c ∈ utf8DecodeReplace l, c < 1114112 :=
  utf8DecodeReplaceAux_lt l.length l

theorem utf8DecodeReplaceAux_ascii :
    ∀ (l : List Nat) (fuel : Nat), l.length ≤ fuel → (∀ b ∈ l, b < 128) →
      utf8DecodeReplaceAux fuel l = l := by
  intro l
  induction l with
  | nil => intro fuel _ _; cases fuel <;> rfl
  | cons b rest ih =>
      intro fuel hlen hb
      match fuel with
      | 0 => simp at hlen
      | fuel + 1 =>
          have hblt : b < 128 := hb b (List.mem_cons_self b rest)
          have hrest : rest.length ≤ fuel := by
            simp only [List.length_cons] at hlen; omega
          simp only [utf8DecodeReplaceAux, if_pos hblt,
            ih fuel hrest (fun x hx => hb x (List.mem_cons_of_mem b hx))]

theorem utf8DecodeReplace_ascii (l : List Nat) (h : ∀ b ∈ l, b < 128) :
    utf8DecodeReplace l = l :=
  utf8DecodeReplaceAux_ascii l l.length le_rfl h


theorem utf8DecodeStrictAux_encodeChar (fuel c : Nat) (hc : c < 1114112)
    (rest : List Nat) :
    utf8DecodeStrictAux (fuel + 1) (utf8EncodeChar c ++ rest)
      = (utf8DecodeStrictAux fuel rest).map (fun cs => c :: cs) := by
  by_cases h1 : c < 128
  · have he : utf8EncodeChar c = [c] := by rw [utf8EncodeChar, if_pos h1]
    rw [he, List.cons_append, List.nil_append]
    simp only [utf8DecodeStrictAux, if_pos h1]
  · by_cases h2 : c < 2048
    · have he : utf8EncodeChar c = [192 + c / 64, 128 + c % 64] := by
        rw [utf8EncodeChar, if_neg h1, if_pos h2]
      have k1 : ¬(192 + c / 64 < 128) := by omega
      have k2 : ¬(192 + c / 64 < 194) := by omega
      have k3 : 192 + c / 64 < 224 := by omega
      have hcont : contByte (128 + c % 64) = true := by
        simp only [contByte, Bool.and_eq_true, decide_eq_true_iff]
        omega
      have hv : (192 + c / 64 - 192) * 64 + (128 + c % 64 - 128) = c := by omega
      rw [he]
      simp only [List.append_eq, List.cons_append, List.nil_append, utf8DecodeStrictAux,
        if_neg k1, if_neg k2, if_pos k3, hcont, if_pos, hv]
    · by_cases h3 : c < 65536
      · have he : utf8EncodeChar c
            = [224 + c / 4096, 128 + c / 64 % 64, 128 + c % 64] := by
          rw [utf8EncodeChar, if_neg h1, if_neg h2, if_pos h3]
        have k1 : ¬(224 + c / 4096 < 128) := by omega
        have k2 : ¬(224 + c / 4096 < 194) := by omega
        have k3 : ¬(224 + c / 4096 < 224) := by omega
        have k4 : 224 + c / 4096 < 240 := by omega
        have hcont : (contByte (128 + c / 64 % 64) && contByte (128 + c % 64)) = true := by
          simp only [contByte, Bool.and_eq_true, decide_eq_true_iff]
          omega
        have hv : (224 + c / 4096 - 224) * 4096 + (128 + c / 64 % 64 - 128) * 64
            + (128 + c % 64 - 128) = c := by omega
        have hge : 2048 ≤ (224 + c / 4096 - 224) * 4096 + (128 + c / 64 % 64 - 128) * 64
            + (128 + c % 64 - 128) := by omega
        have hge2 : 2048 ≤ c := by omega
        rw [he]
        simp only [List.append_eq, List.cons_append, List.nil_append, utf8DecodeStrictAux,
          if_neg k1, if_neg k2, if_neg k3, if_pos k4, hcont, if_pos hge, if_pos hge2,
          if_pos, hv]
      · have he : utf8EncodeChar c
            = [240 + c / 262144, 128 + c / 4096 % 64, 128 + c / 64 % 64, 128 + c % 64] := by
          rw [utf8EncodeChar, if_neg h1, if_neg h2, if_neg h3]
        have k1 : ¬(240 + c / 262144 < 128) := by omega
        have k2 : ¬(240 + c / 262144 < 194) := by omega
        have k3 : ¬(240 + c / 262144 < 224) := by omega
        have k4 : ¬(240 + c / 262144 < 240) := by omega
        have k5 : 240 + c / 262144 < 245 := by omega
        have hcont : (contByte (128 + c / 4096 % 64) && contByte (128 + c / 64 % 64)
            && contByte (128 + c % 64)) = true := by
          simp only [contByte, Bool.and_eq_true, decide_eq_true_iff]
          omega
        have hv : (240 + c / 262144 - 240) * 262144 + (128 + c / 4096 % 64 - 128) * 4096
            + (128 + c / 64 % 64 - 128) * 64 + (128 + c % 64 - 128) = c := by omega
        have hrange : 65536 ≤ (240 + c / 262144 - 240) * 262144
              + (128 + c / 4096 % 64 - 128) * 4096
              + (128 + c / 64 % 64 - 128) * 64 + (128 + c % 64 - 128)
            ∧ (240 + c / 262144 - 240) * 262144 + (128 + c / 4096 % 64 - 128) * 4096
              + (128 + c / 64 % 64 - 128) * 64 + (128 + c % 64 - 128) < 1114112 := by
          constructor <;> omega
        have hrange2 : 65536 ≤ c ∧ c < 1114112 := by constructor <;> omega
        rw [he]
        simp only [List.append_eq, List.cons_append, List.nil_append, utf8DecodeStrictAux,
          if_neg k1, if_neg k2, if_neg k3, if_neg k4, if_pos k5, hcont,
          if_pos hrange, if_pos hrange2, if_pos, hv]

theorem utf8EncodeChar_length_pos (c : Nat) : 1 ≤ (utf8EncodeChar c).length := by
  rw [utf8EncodeChar]
  split_ifs <;> simp

theorem utf8Encode_length (cs : List Nat) : cs.length ≤ (utf8Encode cs).length := by
  induction cs with
  | nil => simp [utf8Encode]
  | cons c cs ih =>
      have he : utf8Encode (c :: cs) = utf8EncodeChar c ++ utf8Encode cs := by
        simp [utf8Encode]
      rw [he]
      simp only [List.length_append, List.length_cons]
      have := utf8EncodeChar_length_pos c
      omega

theorem utf8DecodeStrictAux_encode :
    ∀ (cs : List Nat) (fuel : Nat), cs.length ≤ fuel → (∀ c ∈ cs, c < 1114112) →
      utf8DecodeStrictAux fuel (utf8Encode cs) = some cs := by
  intro cs
  induction cs with
  | nil => intro fuel _ _; cases fuel <;> rfl
  | cons c cs ih =>
      intro fuel hlen h
      match fuel with
      | 0 => simp at hlen
      | fuel + 1 =>
          have he : utf8Encode (c :: cs) = utf8EncodeChar c ++ utf8Encode cs := by
            simp [utf8Encode]
          rw [he, utf8DecodeStrictAux_encodeChar fuel c (h c (List.mem_cons_self c cs))
            (utf8Encode cs)]
          rw [ih fuel (by simp only [List.length_cons] at hlen; omega)
            (fun x hx => h x (List.mem_cons_of_mem c hx))]
          rfl

theorem utf8DecodeStrict_encode (cs : List Nat) (h : ∀ c ∈ cs, c < 1114112) :
    utf8DecodeStrict (utf8Encode cs) = some cs := by
  have hlen : cs.length ≤ (utf8Encode cs).length := utf8Encode_length cs
  exact utf8DecodeStrictAux_encode cs (utf8Encode cs).length hlen h

theorem hexVal_hexDigitChar (n : Nat) (h : n < 16) :
    hexVal (hexDigitChar n) = some n := by
  by_cases h10 : n < 10
  · simp only [hexDigitChar, if_pos h10, hexVal]
    rw [if_pos (by omega : 48 ≤ 48 + n ∧ 48 + n ≤ 57)]
    congr 1
    omega
  · simp only [hexDigitChar, if_neg h10, hexVal]
    rw [if_neg (by omega : ¬(48 ≤ 87 + n ∧ 87 + n ≤ 57)),
      if_pos (by omega : 97 ≤ 87 + n ∧ 87 + n ≤ 102)]
    congr 1
    omega

theorem hexDigitChar_lt (n : Nat) (h : n < 16) : hexDigitChar n < 1114112 := by
  unfold hexDigitChar
  split_ifs <;> omega

theorem escapeChar_lt (c : Nat) (hc : c < 1114112) :
    ∀ d ∈ escapeChar c, d < 1114112 := by
  intro d hd
  unfold escapeChar at hd
  split_ifs at hd with e1 e2 e3 e4 e5 e6 e7 e8
  all_goals simp only [List.mem_cons, List.not_mem_nil, or_false] at hd
  · rcases hd with rfl | rfl <;> omega
  · rcases hd with rfl | rfl <;> omega
  · rcases hd with rfl | rfl <;> omega
  · rcases hd with rfl | rfl <;> omega
  · rcases hd with rfl | rfl <;> omega
  · rcases hd with rfl | rfl <;> omega
  · rcases hd with rfl | rfl <;> omega
  · have hx1 : hexDigitChar (c / 16) < 1114112 := hexDigitChar_lt _ (by omega)
    have hx2 : hexDigitChar (c % 16) < 1114112 := hexDigitChar_lt _ (by omega)
    rcases hd with rfl | rfl | rfl | rfl | rfl | rfl <;> omega
  · rcases hd with rfl
    exact hc

theorem escapeString_lt (cs : List Nat) (h : ∀ c ∈ cs, c < 1114112) :
    ∀ d ∈ escapeString cs, d < 1114112 := by
  intro d hd
  simp only [escapeString, List.mem_flatten, List.mem_map] at hd
  obtain ⟨l, ⟨c, hc, rfl⟩, hdl⟩ := hd
  exact escapeChar_lt c (h c hc) d hdl

theorem parseStringBody_hexEscape (c : Nat) (tail : List Nat) (e8 : c < 32) :
    parseStringBody (92 :: 117 :: 48 :: 48 :: hexDigitChar (c / 16)
        :: hexDigitChar (c % 16) :: tail)
      = (parseStringBody tail).map (fun p => (c :: p.1, p.2)) := by
  rw [parseStringBody.eq_def]
  simp only [reduceIte]
  rw [show hexVal 48 = some 0 from rfl, hexVal_hexDigitChar (c / 16) (by omega),
    hexVal_hexDigitChar (c % 16) (by omega)]
  simp only []
  have hv : ((0 * 16 + 0) * 16 + c / 16) * 16 + c % 16 = c := by omega
  rw [hv]
  norm_num

theorem parseStringBody_escape :
    ∀ (cs rem : List Nat),
      parseStringBody (escapeString cs ++ 34 :: rem) = some (cs, rem) := by
  intro cs
  induction cs with
  | nil =>
      intro rem
      show parseStringBody (34 :: rem) = some ([], rem)
      rw [parseStringBody.eq_def]
      simp
  | cons c cs ih =>
      intro rem
      have he : escapeString (c :: cs) = escapeChar c ++ escapeString cs := by
        simp [escapeString]
      rw [he, List.append_assoc]
      by_cases e1 : c = 92
      · subst e1
        show parseStringBody (92 :: 92 :: (escapeString cs ++ 34 :: rem)) = _
        rw [parseStringBody.eq_def]
        simp only [reduceIte]
        rw [ih rem]
        rfl
      · by_cases e2 : c = 34
        · subst e2
          show parseStringBody (92 :: 34 :: (escapeString cs ++ 34 :: rem)) = _
          rw [parseStringBody.eq_def]
          simp only [reduceIte]
          rw [ih rem]
          rfl
        · by_cases e3 : c = 8
          · subst e3
            show parseStringBody (92 :: 98 :: (escapeString cs ++ 34 :: rem)) = _
            rw [parseStringBody.eq_def]
            simp only [reduceIte]
            rw [ih rem]
            rfl
          · by_cases e4 : c = 9
            · subst e4
              show parseStringBody (92 :: 116 :: (escapeString cs ++ 34 :: rem)) = _
              rw [parseStringBody.eq_def]
              simp only [reduceIte]
              rw [ih rem]
              rfl
            · by_cases e5 : c = 10
              · subst e5
                show parseStringBody (92 :: 110 :: (escapeString cs ++ 34 :: rem)) = _
                rw [parseStringBody.eq_def]
                simp only [reduceIte]
                rw [ih rem]
                rfl
              · by_cases e6 : c = 12
                · subst e6
                  show parseStringBody (92 :: 102 :: (escapeString cs ++ 34 :: rem)) = _
                  rw [parseStringBody.eq_def]
                  simp only [reduceIte]
                  rw [ih rem]
                  rfl
                · by_cases e7 : c = 13
                  · subst e7
                    show parseStringBody (92 :: 114 :: (escapeString cs ++ 34 :: rem)) = _
                    rw [parseStringBody.eq_def]
                    simp only [reduceIte]
                    rw [ih rem]
                    rfl
                  · by_cases e8 : c < 32
                    · have hesc : escapeChar c
                          = [92, 117, 48, 48, hexDigitChar (c / 16), hexDigitChar (c % 16)] := by
                        unfold escapeChar
                        rw [if_neg e1, if_neg e2, if_neg e3, if_neg e4, if_neg e5,
                          if_neg e6, if_neg e7, if_pos e8]
                      rw [hesc]
                      show parseStringBody (92 :: 117 :: 48 :: 48 :: hexDigitChar (c / 16)
                          :: hexDigitChar (c % 16) :: (escapeString cs ++ 34 :: rem)) = _
                      rw [parseStringBody_hexEscape c _ e8, ih rem]
                      rfl
                    · have hesc : escapeChar c = [c] := by
                        unfold escapeChar
                        rw [if_neg e1, if_neg e2, if_neg e3, if_neg e4, if_neg e5,
                          if_neg e6, if_neg e7, if_neg e8]
                      rw [hesc]
                      show parseStringBody (c :: (escapeString cs ++ 34 :: rem)) = _
                      rw [parseStringBody.eq_def]
                      simp only [if_neg e2, if_neg e1, if_neg e8]
                      rw [ih rem]
                      rfl

theorem hasHighByte_false {bytes : List Nat} (h : hasHighByte bytes = false) :
    ∀ b ∈ bytes, b < 128 := by
  intro b hb
  by_contra hge
  have ht : hasHighByte bytes = true := by
    simp only [hasHighByte, List.any_eq_true, decide_eq_true_iff]
    exact ⟨b, hb, by omega⟩
  rw [ht] at h
  cases h

/-- C3: serialization of a string field never raises — for EVERY byte
sequence (valid UTF-8 or not) the serialized output is valid UTF-8 that
parses back as a JSON string, and the parsed-back content is exactly
the replacement decoding of the input, in which every invalid byte is
substituted with U+FFFD; instantiated at a concrete input with an
invalid byte, the replacement character appears at its position. -/
theorem claim_c3_serialization :
    (∀ bytes : List Nat,
      parseJsonString (serializeStringField bytes) = some (utf8DecodeReplace bytes)) ∧
    parseJsonString (serializeStringField [65, 240, 66]) = some [65, 65533, 66] ∧
    utf8DecodeReplace [65, 240, 66] = [65, 65533, 66] := by
  refine ⟨?_, by decide, by decide⟩
  intro bytes
  have hvalue : (if hasHighByte bytes then utf8DecodeReplace bytes else bytes)
      = utf8DecodeReplace bytes := by
    by_cases hh : hasHighByte bytes = true
    · rw [if_pos hh]
    · rw [if_neg hh,
        utf8DecodeReplace_ascii bytes (hasHighByte_false (by simpa using hh))]
  have hL : ∀ c ∈ ((34 :: escapeString (utf8DecodeReplace bytes)) ++ [34]), c < 1114112 := by
    intro c hc
    rcases List.mem_append.mp hc with hc | hc
    · rcases List.mem_cons.mp hc with rfl | hc
      · omega
      · exact escapeString_lt _ (utf8DecodeReplace_lt bytes) c hc
    · rw [List.mem_singleton] at hc
      omega
  unfold parseJsonString serializeStringField encodeBasestring
  rw [hvalue, utf8DecodeStrict_encode _ hL]
  simp only [Option.bind, List.cons_append]
  rw [parseStringBody_escape (utf8DecodeReplace bytes) []]
